import Mathlib

/-!
A shallow embedding of `signal-chat.c`.

Two processes exchange lines of text through two 4096-byte POSIX shared-memory
regions (one "inbox" per process) and wake each other with signals.

Conventions of the embedding.

* A `char` cell is a `Nat`; a C array is a `List Nat` whose length is the array size.
* A NUL-terminated string living in an array is the prefix of the array before its
  first zero cell.
* `long` is 64 bits wide and `pid_t` is a 32-bit `int` (LP64, as on Linux/glibc).
* A shared-memory object is identified by a number; the namespace maps names to
  objects, and a mapping (the pointer returned by `mmap`) refers to the object, so
  it outlives an `shm_unlink` of the name.
-/

namespace SignalChat

/-! ## Constants -/

/-- The region size: `#define BOX_SIZE 4096`. -/
def BOX_SIZE : Nat := 4096

/-- The value of `NAME_MAX` from `<limits.h>`. -/
def NAME_MAX : Nat := 255

/-! ## libc primitives on arrays of `char` -/

/-- Models `memset(buf, c, n)`: the first `n` cells become `c`. -/
def memset (buf : List Nat) (c n : Nat) : List Nat :=
  List.replicate n c ++ buf.drop n

/-- The `n` cells `strncpy` stores: the cells of `src` before its first zero, then
zero padding up to `n` cells. If `src` holds `n` non-zero cells, all `n` are stored
and no zero is written. An exhausted `src` list counts as a terminator; this case
is never met when `src` is an array of at least `n` cells. -/
def strncpyCells : List Nat → Nat → List Nat
  | _, 0 => []
  | [], n + 1 => List.replicate (n + 1) 0
  | c :: cs, n + 1 => if c = 0 then List.replicate (n + 1) 0 else c :: strncpyCells cs n

/-- Models `strncpy(dest, src, n)`. -/
def strncpy (dest src : List Nat) (n : Nat) : List Nat :=
  strncpyCells src n ++ dest.drop n

/-- The text a `%s` conversion prints from an array: the cells before the first
zero. `none` when the array holds no zero, where the C read runs past the end of
the array (undefined behaviour). -/
def cstr : List Nat → Option (List Nat)
  | [] => none
  | c :: cs => if c = 0 then some [] else (cstr cs).map (c :: ·)

/-- The bytes one `fgets` call consumes: at most `n` bytes, stopping after a
newline (byte 10) or at end of input. Returns the bytes taken and the rest. -/
def fgetsTake : Nat → List Nat → List Nat × List Nat
  | 0, s => ([], s)
  | _ + 1, [] => ([], [])
  | n + 1, c :: cs =>
    if c = 10 then ([c], cs) else ((fgetsTake n cs).1.cons c, (fgetsTake n cs).2)

/-- Models `fgets(buf, size, stdin)`: `none` is the `NULL` result (end of input
with nothing read); otherwise the new array content (the bytes read, a zero, and
the untouched tail of the array) and the unread input. -/
def fgets (buf : List Nat) (size : Nat) (stdin : List Nat) : Option (List Nat × List Nat) :=
  match fgetsTake (size - 1) stdin with
  | ([], _) => none
  | (l, rest) => some (l ++ 0 :: buf.drop (l.length + 1), rest)

/-! ## The mailbox operations of the program -/

/-- The polling test of the send loop, `other_inbox[0] != 0`. -/
def is_occupied (box : List Nat) : Bool :=
  decide (box.headD 0 ≠ 0)

/-- The write of the send loop: `strncpy(other_inbox, message, BOX_SIZE)`. -/
def write (box message : List Nat) : List Nat :=
  strncpy box message BOX_SIZE

/-- The store `my_inbox[0] = 0` of the `SIGUSR1` branch. -/
def markEmpty (box : List Nat) : List Nat :=
  box.set 0 0

/-- The `SIGUSR1` branch of `signal_handler` on the inbox content: the text
`printf("Received message: %s", my_inbox)` prints, and the inbox after
`my_inbox[0] = 0`. The text is `none` when the inbox holds no zero cell: the `%s`
read then runs past the end of the region and what is printed is not a function
of the inbox content. The store is made in either case. -/
def drain (box : List Nat) : Option (List Nat) × List Nat :=
  (cstr box, markEmpty box)

/-- The zero fill of `setup_inboxes`: `memset(box, 0, BOX_SIZE)`. -/
def clear (box : List Nat) : List Nat :=
  memset box 0 BOX_SIZE

/-- The line-to-mailbox path of one loop iteration (lines 106 to 118):
`fgets(message, BOX_SIZE, stdin)` followed by
`strncpy(other_inbox, message, BOX_SIZE)`. `none` at end of input. -/
def sendLine (box message stdin : List Nat) : Option (List Nat) :=
  (fgets message BOX_SIZE stdin).map fun r => write box r.1

/-! ## Region names: `snprintf(filename, NAME_MAX, "/%d-chat", pid)` -/

/-- Decimal digits of `n`, least significant first, by repeated division; the
first argument bounds the number of digits produced. -/
def decDigits : Nat → Nat → List Nat
  | 0, _ => []
  | f + 1, n => if n = 0 then [] else (n % 10) :: decDigits f (n / 10)

/-- The character of a decimal digit. -/
def digitChar (d : Nat) : Char := Char.ofNat (48 + d)

/-- Models the `%d` conversion of `printf`: a minus sign for a negative value, then
the decimal digits, most significant first, `0` for zero. -/
def fmt_d (v : Int) : List Char :=
  (if v < 0 then ['-'] else []) ++
    (if v = 0 then ['0'] else ((decDigits v.natAbs v.natAbs).reverse.map digitChar))

/-- Models the truncation of `snprintf(buf, size, ...)`: at most `size - 1`
characters are stored before the terminator. -/
def snprintf (size : Nat) (text : List Char) : List Char :=
  text.take (size - 1)

/-- The name `setup_inbox_for` builds for `pid`:
`snprintf(filename, NAME_MAX, "/%d-chat", pid)`. -/
def region_name (pid : Int) : String :=
  String.mk (snprintf NAME_MAX ('/' :: (fmt_d pid ++ ['-', 'c', 'h', 'a', 't'])))

/-- The values of `pid_t`, a 32-bit signed integer. -/
def isPid (v : Int) : Prop := -2147483648 ≤ v ∧ v < 2147483648

instance (v : Int) : Decidable (isPid v) := by unfold isPid; infer_instance

/-! ## The shared-memory namespace -/

/-- The POSIX shared-memory state: which object each name denotes, the content of
each object, and the next unused object number. -/
structure Shm where
  names : String → Option Nat
  objs : Nat → List Nat
  next : Nat

namespace Shm

/-- Models `shm_open(name, O_CREAT | O_RDWR, 0666)`: the object the name denotes,
created empty when the name is absent. -/
def shm_open (s : Shm) (name : String) : Shm × Nat :=
  match s.names name with
  | some id => (s, id)
  | none =>
    ({ names := fun n => if n = name then some s.next else s.names n
       objs := fun i => if i = s.next then [] else s.objs i
       next := s.next + 1 }, s.next)

/-- Models `ftruncate(fd, len)`: the object is cut or zero-extended to `len` cells. -/
def ftruncate (s : Shm) (id len : Nat) : Shm :=
  { s with objs := fun i =>
      if i = id then (s.objs id).take len ++ List.replicate (len - (s.objs id).length) 0
      else s.objs i }

/-- A store through a mapping of object `id`. -/
def store (s : Shm) (id : Nat) (cells : List Nat) : Shm :=
  { s with objs := fun i => if i = id then cells else s.objs i }

/-- Models `shm_unlink(name)`: the name is removed; the object stays reachable
through existing mappings. -/
def shm_unlink (s : Shm) (name : String) : Shm :=
  { s with names := fun n => if n = name then none else s.names n }

/-- Well-formed namespaces: every named object was allocated before `next`, and
two different names denote two different objects. -/
def WF (s : Shm) : Prop :=
  (∀ n id, s.names n = some id → id < s.next) ∧
    (∀ n m id, s.names n = some id → s.names m = some id → n = m)

end Shm

/-- The namespace with no entry. -/
def Shm.empty : Shm := { names := fun _ => none, objs := fun _ => [], next := 0 }

/-! ## Process state -/

/-- The three signals the program installs a handler for. -/
inductive Signal
  | SIGINT
  | SIGTERM
  | SIGUSR1
  deriving DecidableEq, Repr

/-- What a process writes to standard output. -/
inductive Out
  | this_pid
  | ask_pid
  | ask_message
  | eof_notice
  | sigterm_notice
  | sigint_notice
  | received (text : Option (List Nat))
  deriving DecidableEq, Repr

/-- How a process ended: `exit(n)` or `return n` from `main`, `abort()`, or a
memory fault on an access through an unmapped pointer. -/
inductive Exit
  | code (n : Nat)
  | abort
  | fault
  deriving DecidableEq, Repr

/-- The system call of `setup_inbox_for` that the system makes fail, if any. -/
inductive SetupFault
  | shm_open
  | ftruncate
  | mmap
  deriving DecidableEq, Repr

/-- The globals of one process together with its observable effects. A mapping
is `none` before `mmap` and after `munmap`. -/
structure Proc where
  pid : Int
  other_pid : Int
  my_inbox : Option Nat
  other_inbox : Option Nat
  my_inbox_shm_open_name : String
  other_inbox_shm_open_name : String
  stdout : List Out
  kills : List (Int × Signal)
  status : Option Exit

/-- A process right after `other_pid` is set and before `setup_inboxes`. -/
def Proc.start (pid other_pid : Int) : Proc :=
  { pid := pid, other_pid := other_pid, my_inbox := none, other_inbox := none
    my_inbox_shm_open_name := "", other_inbox_shm_open_name := ""
    stdout := [], kills := [], status := none }

/-- `EXIT_SUCCESS`. -/
def EXIT_SUCCESS : Nat := 0

/-- Models `setup_inbox_for(pid, filename)`: the name written to `filename`, the
object mapped, and the namespace afterwards; an error when the chosen system
call fails (the process aborts). -/
def setup_inbox_for (flt : Option SetupFault) (s : Shm) (pid : Int) :
    Except SetupFault (Shm × String × Nat) :=
  let filename := region_name pid
  if flt = some SetupFault.shm_open then Except.error SetupFault.shm_open
  else
    let r := s.shm_open filename
    if flt = some SetupFault.ftruncate then Except.error SetupFault.ftruncate
    else
      let s2 := r.1.ftruncate r.2 BOX_SIZE
      if flt = some SetupFault.mmap then Except.error SetupFault.mmap
      else Except.ok (s2, filename, r.2)

/-- Models `setup_inboxes()`: both regions are opened (created when absent) and
mapped, then both are zero-filled. -/
def setup_inboxes (f1 f2 : Option SetupFault) (p : Proc) (s : Shm) :
    Except SetupFault (Proc × Shm) :=
  match setup_inbox_for f1 s p.pid with
  | Except.error e => Except.error e
  | Except.ok (s1, myName, mine) =>
    match setup_inbox_for f2 s1 p.other_pid with
    | Except.error e => Except.error e
    | Except.ok (s2, otherName, other) =>
      let s3 := s2.store mine (memset (s2.objs mine) 0 BOX_SIZE)
      let s4 := s3.store other (memset (s3.objs other) 0 BOX_SIZE)
      Except.ok ({ p with my_inbox := some mine, other_inbox := some other
                          my_inbox_shm_open_name := myName
                          other_inbox_shm_open_name := otherName }, s4)

/-- Models `cleanup_inboxes()`: both mappings are removed and the name of the
process's own region is unlinked. -/
def cleanup_inboxes (p : Proc) (s : Shm) : Proc × Shm :=
  ({ p with my_inbox := none, other_inbox := none }, s.shm_unlink p.my_inbox_shm_open_name)

/-- Models `signal_handler(signum)`. -/
def signal_handler (signum : Signal) (p : Proc) (s : Shm) : Proc × Shm :=
  match signum with
  | Signal.SIGTERM =>
    let r := cleanup_inboxes { p with stdout := p.stdout ++ [Out.sigterm_notice] } s
    ({ r.1 with status := some (Exit.code EXIT_SUCCESS) }, r.2)
  | Signal.SIGINT =>
    let r := cleanup_inboxes { p with stdout := p.stdout ++ [Out.sigint_notice] } s
    ({ r.1 with kills := r.1.kills ++ [(r.1.other_pid, Signal.SIGTERM)]
                status := some (Exit.code EXIT_SUCCESS) }, r.2)
  | Signal.SIGUSR1 =>
    match p.my_inbox with
    | none => ({ p with status := some Exit.fault }, s)
    | some id =>
      ({ p with stdout := p.stdout ++ [Out.received (drain (s.objs id)).1] },
       s.store id (drain (s.objs id)).2)

/-! ## Reading the peer identity: `other_pid = strtol(line, NULL, 10)` -/

/-- `LONG_MAX` of a 64-bit `long`. -/
def LONG_MAX : Int := 9223372036854775807

/-- `LONG_MIN` of a 64-bit `long`. -/
def LONG_MIN : Int := -9223372036854775808

/-- Models `isspace` in the C locale: space, tab, newline, vertical tab, form feed,
carriage return. -/
def isspace (c : Nat) : Bool :=
  c = 32 || (9 ≤ c && c ≤ 13)

/-- Models `isdigit`. -/
def isdigit (c : Nat) : Bool :=
  48 ≤ c && c ≤ 57

/-- The value of the leading decimal digits of a byte string, accumulated from the
left; `acc` when there is none. -/
def leadingDigits : List Nat → Nat → Nat
  | [], acc => acc
  | c :: cs, acc => if isdigit c then leadingDigits cs (acc * 10 + (c - 48)) else acc

/-- Models `strtol(line, NULL, 10)` on the bytes of the line: leading white space
is skipped, an optional sign is read, then the leading digits; the result is 0 when
there is no digit and is clamped to the range of `long`. -/
def strtol (line : List Nat) : Int :=
  match line.dropWhile isspace with
  | 45 :: rest =>
    if LONG_MIN ≤ -(leadingDigits rest 0 : Int) then -(leadingDigits rest 0 : Int) else LONG_MIN
  | 43 :: rest =>
    if (leadingDigits rest 0 : Int) ≤ LONG_MAX then (leadingDigits rest 0 : Int) else LONG_MAX
  | rest =>
    if (leadingDigits rest 0 : Int) ≤ LONG_MAX then (leadingDigits rest 0 : Int) else LONG_MAX

/-- The conversion of a `long` to `pid_t` done by the assignment to `other_pid`:
the value is reduced modulo 2^32 into the signed 32-bit range. -/
def toPid (v : Int) : Int :=
  (v + 2147483648) % 4294967296 - 2147483648

/-- One pass of the identity loop on one line: the value stored in `other_pid`,
and whether the loop condition `(other_pid = strtol(line, NULL, 10)) == 0` asks
again. -/
def readPeerIdentity (line : List Nat) : Int × Bool :=
  (toPid (strtol line), decide (toPid (strtol line) = 0))

/-- The identity loop of `main` over the lines `getline` returns: `none` when the
input ends first (`getline` gives -1 and the process aborts), otherwise the value
of `other_pid` on leaving the loop. -/
def awaitPeerIdentity : List (List Nat) → Option Int
  | [] => none
  | line :: rest =>
    if (readPeerIdentity line).2 then awaitPeerIdentity rest else some (readPeerIdentity line).1

/-! ## The message loop of `main` -/

/-- Where `main` stands in its message loop: about to read a line, polling the
peer's sentinel, or past the loop. -/
inductive PC
  | read
  | poll
  | finished
  deriving DecidableEq, Repr

/-- The locals of `main` in the message loop. -/
structure Main where
  pc : PC
  stdin : List Nat
  message : List Nat

/-- One step of the message loop of `main`.

* At `read`: prompt and `fgets`. At end of input the process prints the notice,
  sends `SIGTERM` to the peer, leaves the loop, runs `cleanup_inboxes` and returns
  `EXIT_SUCCESS`. Otherwise the line is copied into the peer's inbox with `strncpy`,
  `SIGUSR1` is sent and the loop starts polling.
* At `poll`: one test of `other_inbox[0] != 0`; the loop sleeps while it holds and
  goes back to `read` when it fails.
A process that has ended takes no step. -/
def mainStep (m : Main) (p : Proc) (s : Shm) : Main × Proc × Shm :=
  match p.status with
  | some _ => (m, p, s)
  | none =>
    match m.pc with
    | PC.finished => (m, p, s)
    | PC.read =>
      match fgets m.message BOX_SIZE m.stdin with
      | none =>
        let p1 := { p with stdout := p.stdout ++ [Out.ask_message, Out.eof_notice]
                           kills := p.kills ++ [(p.other_pid, Signal.SIGTERM)] }
        let r := cleanup_inboxes p1 s
        ({ m with pc := PC.finished },
         { r.1 with status := some (Exit.code EXIT_SUCCESS) }, r.2)
      | some (msg, rest) =>
        match p.other_inbox with
        | none =>
          ({ m with message := msg, stdin := rest },
           { p with stdout := p.stdout ++ [Out.ask_message], status := some Exit.fault }, s)
        | some id =>
          ({ pc := PC.poll, stdin := rest, message := msg },
           { p with stdout := p.stdout ++ [Out.ask_message]
                    kills := p.kills ++ [(p.other_pid, Signal.SIGUSR1)] },
           s.store id (write (s.objs id) msg))
    | PC.poll =>
      match p.other_inbox with
      | none => (m, { p with status := some Exit.fault }, s)
      | some id =>
        if is_occupied (s.objs id) then (m, p, s) else ({ m with pc := PC.read }, p, s)

/-! ## Two peers -/

/-- A sender `a` in its message loop, its peer `b`, and the shared memory. -/
structure World where
  main : Main
  a : Proc
  b : Proc
  shm : Shm

/-- The events of the sender model: a step of the sender's loop, or the peer
handling a `SIGUSR1` (a drain of the peer's inbox). A peer that has ended handles
no signal. -/
inductive Event
  | step
  | drain
  deriving DecidableEq, Repr

/-- The effect of one event. -/
def World.next (w : World) : Event → World
  | Event.step =>
    let r := mainStep w.main w.a w.shm
    { w with main := r.1, a := r.2.1, shm := r.2.2 }
  | Event.drain =>
    match w.b.status with
    | some _ => w
    | none =>
      let r := signal_handler Signal.SIGUSR1 w.b w.shm
      { w with b := r.1, shm := r.2 }

/-- The effect of a sequence of events. -/
def World.run (w : World) (evs : List Event) : World :=
  evs.foldl World.next w

/-- The content of the sender's outbox (the peer's inbox), read through the
sender's mapping; empty when there is no mapping. -/
def World.outbox (w : World) : List Nat :=
  match w.a.other_inbox with
  | some id => w.shm.objs id
  | none => []

/-- The sender about to read its first line, right after its setup. -/
def World.init (a b : Proc) (shm : Shm) (stdin message : List Nat) : World :=
  { main := { pc := PC.read, stdin := stdin, message := message }, a := a, b := b, shm := shm }

/-- The single-slot invariant: whenever the running sender stands before reading
a line, its outbox is not occupied. -/
def World.Inv (w : World) : Prop :=
  w.main.pc = PC.read → w.a.status = none → is_occupied w.outbox = false

instance (w : World) : Decidable w.Inv := by unfold World.Inv; infer_instance

/-- The delivery of a signal to a process: a running process runs its handler, a
process that has ended handles nothing. -/
def deliver (signum : Signal) (p : Proc) (s : Shm) : Proc × Shm :=
  match p.status with
  | some _ => (p, s)
  | none => signal_handler signum p s

/-- The signals a process sent to the identity `pid`, among the entries of its
`kill` record after the first `seen` ones. -/
def sentTo (p : Proc) (seen : Nat) (pid : Int) : List Signal :=
  ((p.kills.drop seen).filter fun k => decide (k.1 = pid)).map Prod.snd

/-- The delivery of a list of signals to a process, in order. -/
def deliverAll (sigs : List Signal) (p : Proc) (s : Shm) : Proc × Shm :=
  sigs.foldl (fun r sig => deliver sig r.1 r.2) (p, s)

/-- A local interrupt of `a` in a system of two processes: `a` handles `SIGINT`,
then `b` is delivered every signal that `a` sent to the identity of `b` while
handling it. The result is `a` afterwards, `b` afterwards, and the namespace. -/
def interrupt (a b : Proc) (s : Shm) : Proc × Proc × Shm :=
  ((deliver Signal.SIGINT a s).1,
   deliverAll (sentTo (deliver Signal.SIGINT a s).1 a.kills.length b.pid) b
     (deliver Signal.SIGINT a s).2)

/-- The three ways a session ends: end of input in the message loop, a local
interrupt (`SIGINT`), a received `SIGTERM`. -/
inductive Termination
  | end_of_input
  | interrupt
  | terminate
  deriving DecidableEq, Repr

/-- The code run on each termination path, from a process whose loop stands at
`read` with its input exhausted for `end_of_input`. -/
def terminate (t : Termination) (m : Main) (p : Proc) (s : Shm) : Proc × Shm :=
  match t with
  | Termination.end_of_input => (mainStep { m with pc := PC.read, stdin := [] } p s).2
  | Termination.interrupt => signal_handler Signal.SIGINT p s
  | Termination.terminate => signal_handler Signal.SIGTERM p s

/-! ## Facts about the libc primitives -/

theorem strncpyCells_length (src : List Nat) (n : Nat) : (strncpyCells src n).length = n := by
  induction n generalizing src with
  | zero => cases src <;> simp [strncpyCells]
  | succ k ih =>
    cases src with
    | nil => simp [strncpyCells]
    | cons c cs =>
      by_cases hc : c = 0
      · simp [strncpyCells, hc]
      · simp [strncpyCells, hc, ih]

/-- The cells `strncpy` stores are the source text cut to `n` cells, then zeros. -/
theorem strncpyCells_eq (src : List Nat) (n : Nat) :
    strncpyCells src n =
      (src.takeWhile (fun c => c != 0)).take n ++
        List.replicate (n - ((src.takeWhile (fun c => c != 0)).take n).length) 0 := by
  induction n generalizing src with
  | zero => cases src <;> simp [strncpyCells]
  | succ k ih =>
    cases src with
    | nil => simp [strncpyCells]
    | cons c cs =>
      by_cases hc : c = 0
      · simp [strncpyCells, hc]
      · simp [strncpyCells, hc, List.takeWhile_cons, ih cs]

theorem takeWhile_text_append (t rest : List Nat) :
    (t ++ 0 :: rest).takeWhile (fun c => c != 0) = t.takeWhile (fun c => c != 0) := by
  induction t with
  | nil => simp
  | cons c cs ih =>
    by_cases hc : c = 0
    · simp [hc]
    · rw [List.cons_append, List.takeWhile_cons, List.takeWhile_cons, ih]

theorem takeWhile_text_of_not_mem (t : List Nat) (h : 0 ∉ t) :
    t.takeWhile (fun c => c != 0) = t := by
  rw [List.takeWhile_eq_self_iff]
  intro x hx
  have : x ≠ 0 := fun e => h (e ▸ hx)
  simpa using this

theorem zero_not_mem_takeWhile_text (l : List Nat) :
    0 ∉ l.takeWhile (fun c => c != 0) := by
  intro h
  have := List.mem_takeWhile_imp h
  simp at this

theorem cstr_text_append (t rest : List Nat) (h : 0 ∉ t) : cstr (t ++ 0 :: rest) = some t := by
  induction t with
  | nil => simp [cstr]
  | cons c cs ih =>
    have hc : c ≠ 0 := fun e => h (by simp [e])
    have hcs : 0 ∉ cs := fun e => h (by simp [e])
    simp [cstr, hc, ih hcs]

theorem cstr_eq_none (l : List Nat) (h : 0 ∉ l) : cstr l = none := by
  induction l with
  | nil => simp [cstr]
  | cons c cs ih =>
    have hc : c ≠ 0 := fun e => h (by simp [e])
    have hcs : 0 ∉ cs := fun e => h (by simp [e])
    simp [cstr, hc, ih hcs]

/-- A `%s` read that ends inside the array returns the cells before the first zero. -/
theorem cstr_eq_some (l t : List Nat) (h : cstr l = some t) :
    0 ∉ t ∧ ∃ rest, l = t ++ 0 :: rest := by
  induction l generalizing t with
  | nil => simp [cstr] at h
  | cons c cs ih =>
    by_cases hc : c = 0
    · subst hc
      simp [cstr] at h
      subst h
      exact ⟨by simp, cs, by simp⟩
    · simp only [cstr, hc, if_false, Option.map_eq_some'] at h
      obtain ⟨u, hu, rfl⟩ := h
      obtain ⟨h0, rest, hrest⟩ := ih u hu
      refine ⟨?_, rest, by simp [hrest]⟩
      intro hm
      rcases List.mem_cons.mp hm with e | e
      · exact hc e.symm
      · exact h0 e

theorem cstr_of_mem (l : List Nat) (h : 0 ∈ l) : ∃ t, cstr l = some t := by
  cases hc : cstr l with
  | some t => exact ⟨t, rfl⟩
  | none =>
    exfalso
    induction l with
    | nil => simp at h
    | cons c cs ih =>
      by_cases hz : c = 0
      · simp [cstr, hz] at hc
      · simp only [cstr, hz, if_false, Option.map_eq_none'] at hc
        rcases List.mem_cons.mp h with e | e
        · exact hz e.symm
        · exact ih e hc

theorem fgetsTake_spec (n : Nat) (s : List Nat) :
    (fgetsTake n s).1 ++ (fgetsTake n s).2 = s ∧ (fgetsTake n s).1.length ≤ n ∧
      (0 < n → s ≠ [] → (fgetsTake n s).1 ≠ []) := by
  induction n generalizing s with
  | zero => simp [fgetsTake]
  | succ k ih =>
    cases s with
    | nil => simp [fgetsTake]
    | cons c cs =>
      by_cases hc : c = 10
      · simp [fgetsTake, hc]
      · obtain ⟨h1, h2, _⟩ := ih cs
        simp [fgetsTake, hc, h1, h2]

/-! ## The mailbox: write, drain, clear -/

/-- The mailbox after the write of a message array: the text of the array (its
cells before the first zero) cut to `BOX_SIZE` cells, zero padding up to
`BOX_SIZE`, and the cells of the region beyond `BOX_SIZE`, if any. -/
theorem write_eq (box message : List Nat) :
    write box message =
      (message.takeWhile (fun c => c != 0)).take BOX_SIZE ++
        List.replicate
          (BOX_SIZE - ((message.takeWhile (fun c => c != 0)).take BOX_SIZE).length) 0 ++
        box.drop BOX_SIZE := by
  unfold write strncpy
  rw [strncpyCells_eq]

theorem write_length (box message : List Nat) (h : box.length = BOX_SIZE) :
    (write box message).length = BOX_SIZE := by
  unfold write strncpy
  simp [strncpyCells_length, h]

/-- The write of a terminated text shorter than the region. -/
theorem write_text (box t rest : List Nat) (h0 : 0 ∉ t) (hlen : t.length < BOX_SIZE) :
    write box (t ++ 0 :: rest) =
      t ++ 0 :: (List.replicate (BOX_SIZE - t.length - 1) 0 ++ box.drop BOX_SIZE) := by
  rw [write_eq, takeWhile_text_append, takeWhile_text_of_not_mem t h0,
    List.take_of_length_le (Nat.le_of_lt hlen)]
  have : BOX_SIZE - t.length = (BOX_SIZE - t.length - 1) + 1 := by omega
  rw [this, List.replicate_succ]
  simp

theorem markEmpty_headD (box : List Nat) : (markEmpty box).headD 0 = 0 := by
  cases box <;> simp [markEmpty]

theorem markEmpty_length (box : List Nat) : (markEmpty box).length = box.length := by
  simp [markEmpty]

theorem markEmpty_tail (box : List Nat) : (markEmpty box).tail = box.tail := by
  cases box <;> simp [markEmpty]

theorem clear_eq (box : List Nat) (h : box.length = BOX_SIZE) :
    clear box = List.replicate BOX_SIZE 0 := by
  unfold clear memset
  rw [List.drop_of_length_le (Nat.le_of_eq h)]
  simp

theorem is_occupied_eq_false (box : List Nat) :
    is_occupied box = false ↔ box.headD 0 = 0 := by
  simp [is_occupied]

/-- The bound of the write comes from `fgets`, not from `strncpy`: given a source
of `BOX_SIZE` non-zero cells, `strncpy` with bound `BOX_SIZE` stores them all and
writes no zero. The `message` array never holds such a source, since `fgets`
stores a terminator within its `BOX_SIZE` cells. -/
theorem write_full_source (box : List Nat) (h : box.length = BOX_SIZE) :
    write box (List.replicate BOX_SIZE 65) = List.replicate BOX_SIZE 65 := by
  have h65 : (0 : Nat) ∉ List.replicate BOX_SIZE 65 :=
    fun hm => absurd (List.eq_of_mem_replicate hm) (by decide)
  rw [write_eq, takeWhile_text_of_not_mem _ h65,
    List.take_of_length_le (Nat.le_of_eq (List.length_replicate _ _)),
    List.length_replicate, Nat.sub_self, List.drop_of_length_le (Nat.le_of_eq h),
    List.replicate_zero, List.append_nil, List.append_nil]

/-- Claim C1 (round trip): for every text `T` shorter than `BOX_SIZE - 1` with no
zero byte, held in a message array as `T`, a terminator and any further cells, and
for every prior content of the mailbox, the write of the send loop followed by
the drain of the `SIGUSR1` handler succeeds and prints exactly `T`. -/
theorem C1_round_trip (T rest box : List Nat) (hT : T.length < BOX_SIZE - 1) (h0 : 0 ∉ T) :
    (drain (write box (T ++ 0 :: rest))).1 = some T := by
  have hlen : T.length < BOX_SIZE := by omega
  simp only [drain]
  rw [write_text box T rest h0 hlen]
  exact cstr_text_append T _ h0

theorem C1_round_trip_witness :
    [104, 105, 10].length < BOX_SIZE - 1 ∧ 0 ∉ [104, 105, 10] ∧
      (drain (write (List.replicate BOX_SIZE 7) ([104, 105, 10] ++ 0 :: [9, 9]))).1 =
        some [104, 105, 10] :=
  ⟨by decide, by decide,
    C1_round_trip [104, 105, 10] [9, 9] (List.replicate BOX_SIZE 7) (by decide) (by decide)⟩

/-- Claim C3 (write bound): for every input of any length that is not at its end,
every content of the `message` array and every content of the 4096-cell mailbox,
the line-to-mailbox path (`fgets` then `strncpy`) succeeds and leaves a mailbox of
`BOX_SIZE` cells made of a text `t` and zeros only, where `t` is a prefix of the
input of at most `BOX_SIZE - 1` cells without a zero; so the cell after `t` is a
zero terminator inside the region. -/
theorem C3_write_bound (box message stdin : List Nat) (hbox : box.length = BOX_SIZE)
    (hin : stdin ≠ []) :
    ∃ out t, sendLine box message stdin = some out ∧ out.length = BOX_SIZE ∧
      t <+: stdin ∧ t.length ≤ BOX_SIZE - 1 ∧ 0 ∉ t ∧
      out = t ++ List.replicate (BOX_SIZE - t.length) 0 ∧ out[t.length]? = some 0 := by
  obtain ⟨happ, hle, hne⟩ := fgetsTake_spec (BOX_SIZE - 1) stdin
  have hl : (fgetsTake (BOX_SIZE - 1) stdin).1 ≠ [] := hne (by decide) hin
  generalize hft : fgetsTake (BOX_SIZE - 1) stdin = ft at happ hle hl
  obtain ⟨l, rem⟩ := ft
  simp only at happ hle hl
  have hfg : fgets message BOX_SIZE stdin =
      some (l ++ 0 :: message.drop (l.length + 1), rem) := by
    unfold fgets
    rw [hft]
    cases l with
    | nil => exact absurd rfl hl
    | cons c cs => rfl
  have htl : (l.takeWhile (fun c => c != 0)).length ≤ BOX_SIZE - 1 :=
    le_trans (List.takeWhile_sublist _).length_le hle
  have hB : BOX_SIZE = 4096 := rfl
  refine ⟨write box (l ++ 0 :: message.drop (l.length + 1)),
    l.takeWhile (fun c => c != 0), ?_, write_length _ _ hbox, ?_, htl,
    zero_not_mem_takeWhile_text l, ?_, ?_⟩
  · simp [sendLine, hfg]
  · exact (List.takeWhile_prefix _).trans ⟨rem, happ⟩
  · rw [write_eq, takeWhile_text_append, List.take_of_length_le (by omega),
      List.drop_of_length_le (Nat.le_of_eq hbox)]
    simp
  · rw [write_eq, takeWhile_text_append, List.take_of_length_le (by omega),
      List.drop_of_length_le (Nat.le_of_eq hbox), List.append_nil,
      List.getElem?_append_right (Nat.le_refl _), Nat.sub_self]
    have hk : BOX_SIZE - (l.takeWhile (fun c => c != 0)).length =
        (BOX_SIZE - (l.takeWhile (fun c => c != 0)).length - 1) + 1 := by omega
    rw [hk, List.replicate_succ]
    simp

theorem C3_write_bound_witness :
    (List.replicate BOX_SIZE 7).length = BOX_SIZE ∧ [104, 105, 10, 33] ≠ [] ∧
      ∃ out t, sendLine (List.replicate BOX_SIZE 7) [] [104, 105, 10, 33] = some out ∧
        out.length = BOX_SIZE ∧ t <+: [104, 105, 10, 33] ∧ t.length ≤ BOX_SIZE - 1 ∧ 0 ∉ t ∧
        out = t ++ List.replicate (BOX_SIZE - t.length) 0 ∧ out[t.length]? = some 0 :=
  ⟨by simp, by decide,
    C3_write_bound (List.replicate BOX_SIZE 7) [] [104, 105, 10, 33] (by simp) (by decide)⟩

/-- Claim C4, as stated, fails in its part on the text: a 4096-cell inbox without a
zero cell has no first zero cell, the `%s` read of the handler meets no
terminator inside the region, and the text printed is not the content of the
region up to a zero cell. The sentinel is reset all the same. -/
theorem C4_drain_counterexample :
    (List.replicate BOX_SIZE 65).length = BOX_SIZE ∧
      0 ∉ List.replicate BOX_SIZE 65 ∧
      (drain (List.replicate BOX_SIZE 65)).1 = none ∧
      (¬ ∃ t rest, (drain (List.replicate BOX_SIZE 65)).1 = some t ∧
          List.replicate BOX_SIZE 65 = t ++ 0 :: rest) ∧
      (drain (List.replicate BOX_SIZE 65)).2 = 0 :: List.replicate (BOX_SIZE - 1) 65 := by
  have h65 : (0 : Nat) ∉ List.replicate BOX_SIZE 65 :=
    fun hm => absurd (List.eq_of_mem_replicate hm) (by decide)
  have hd : (drain (List.replicate BOX_SIZE 65)).1 = none := by
    simp only [drain]
    exact cstr_eq_none _ h65
  have hrep : List.replicate BOX_SIZE 65 = 65 :: List.replicate (BOX_SIZE - 1) 65 := rfl
  refine ⟨List.length_replicate _ _, h65, hd, ?_, ?_⟩
  · rintro ⟨t, rest, ht, -⟩
    rw [hd] at ht
    cases ht
  · simp only [drain]
    rw [hrep]
    rfl

/-- Claim C4, amended (drain clears the sentinel): for every process whose inbox
is mapped and every content of that inbox (occupied or not, with or without a
zero cell), after the `SIGUSR1` handler the first cell of the inbox is zero and
`is_occupied` is false, the other cells, every other object and the namespace are
unchanged, the process keeps running and has printed one message; and when the
inbox holds a zero cell, the text printed is the prior content up to its first
zero cell. -/
theorem C4_drain_clears_sentinel (p : Proc) (s : Shm) (id : Nat) (hmap : p.my_inbox = some id) :
    ((signal_handler Signal.SIGUSR1 p s).2.objs id).headD 0 = 0 ∧
      is_occupied ((signal_handler Signal.SIGUSR1 p s).2.objs id) = false ∧
      ((signal_handler Signal.SIGUSR1 p s).2.objs id).length = (s.objs id).length ∧
      ((signal_handler Signal.SIGUSR1 p s).2.objs id).tail = (s.objs id).tail ∧
      (∀ j, j ≠ id → (signal_handler Signal.SIGUSR1 p s).2.objs j = s.objs j) ∧
      (signal_handler Signal.SIGUSR1 p s).2.names = s.names ∧
      (signal_handler Signal.SIGUSR1 p s).1.status = p.status ∧
      (signal_handler Signal.SIGUSR1 p s).1.kills = p.kills ∧
      (signal_handler Signal.SIGUSR1 p s).1.stdout =
        p.stdout ++ [Out.received (drain (s.objs id)).1] ∧
      (0 ∈ s.objs id → ∃ t rest, s.objs id = t ++ 0 :: rest ∧ 0 ∉ t ∧
        (signal_handler Signal.SIGUSR1 p s).1.stdout = p.stdout ++ [Out.received (some t)]) := by
  have hobj : (signal_handler Signal.SIGUSR1 p s).2.objs id = markEmpty (s.objs id) := by
    simp [signal_handler, hmap, drain, Shm.store]
  have hout : (signal_handler Signal.SIGUSR1 p s).1.stdout =
      p.stdout ++ [Out.received (drain (s.objs id)).1] := by
    simp [signal_handler, hmap]
  refine ⟨?_, ?_, ?_, ?_, ?_, ?_, ?_, ?_, hout, ?_⟩
  · rw [hobj]; exact markEmpty_headD _
  · rw [hobj, is_occupied_eq_false]; exact markEmpty_headD _
  · rw [hobj]; exact markEmpty_length _
  · rw [hobj]; exact markEmpty_tail _
  · intro j hj
    simp [signal_handler, hmap, Shm.store, hj]
  · simp [signal_handler, hmap, Shm.store]
  · simp [signal_handler, hmap]
  · simp [signal_handler, hmap]
  · intro h0
    obtain ⟨t, ht⟩ := cstr_of_mem _ h0
    obtain ⟨hnot, rest, hrest⟩ := cstr_eq_some _ _ ht
    refine ⟨t, rest, hrest, hnot, ?_⟩
    rw [hout]
    simp only [drain, ht]

theorem C4_drain_clears_sentinel_witness :
    ({ Proc.start 1 2 with my_inbox := some 0 } : Proc).my_inbox = some 0 ∧
      is_occupied ((signal_handler Signal.SIGUSR1 { Proc.start 1 2 with my_inbox := some 0 }
        (Shm.empty.store 0 [104, 105, 0, 0])).2.objs 0) = false ∧
      (signal_handler Signal.SIGUSR1 { Proc.start 1 2 with my_inbox := some 0 }
        (Shm.empty.store 0 [104, 105, 0, 0])).1.stdout =
        ({ Proc.start 1 2 with my_inbox := some 0 } : Proc).stdout ++
          [Out.received (drain ((Shm.empty.store 0 [104, 105, 0, 0]).objs 0)).1] :=
  ⟨rfl, (C4_drain_clears_sentinel { Proc.start 1 2 with my_inbox := some 0 }
      (Shm.empty.store 0 [104, 105, 0, 0]) 0 rfl).2.1,
    (C4_drain_clears_sentinel { Proc.start 1 2 with my_inbox := some 0 }
      (Shm.empty.store 0 [104, 105, 0, 0]) 0 rfl).2.2.2.2.2.2.2.2.1⟩

/-- The drain of the message `hi` written into a cleared mailbox prints `hi` and
leaves an inbox whose sentinel is zero and whose second letter is still in place. -/
theorem drained_hi :
    drain (write (List.replicate BOX_SIZE 0) [104, 105, 0]) =
      (some [104, 105], 0 :: 105 :: 0 :: List.replicate (BOX_SIZE - 2 - 1) 0) := by
  have hw : write (List.replicate BOX_SIZE 0) ([104, 105] ++ 0 :: ([] : List Nat)) =
      [104, 105] ++ 0 :: (List.replicate (BOX_SIZE - 2 - 1) 0 ++
        (List.replicate BOX_SIZE 0).drop BOX_SIZE) :=
    write_text (List.replicate BOX_SIZE 0) [104, 105] [] (by decide) (by decide)
  have hdrop : (List.replicate BOX_SIZE 0).drop BOX_SIZE = ([] : List Nat) :=
    List.drop_of_length_le (Nat.le_of_eq (List.length_replicate _ _))
  have h2 : ([104, 105, 0] : List Nat) = [104, 105] ++ 0 :: ([] : List Nat) := rfl
  simp only [drain]
  rw [h2, hw, hdrop, List.append_nil, cstr_text_append [104, 105] _ (by decide)]
  rfl

theorem drained_hi_length :
    (0 :: 105 :: 0 :: List.replicate (BOX_SIZE - 2 - 1) 0).length = BOX_SIZE := by
  simp only [List.length_cons, List.length_replicate]
  rfl

/-- The zero fill applied twice is the zero fill applied once, on every array. -/
theorem clear_clear (box : List Nat) : clear (clear box) = clear box := by
  unfold clear memset
  rw [List.drop_append_of_le_length (Nat.le_of_eq (List.length_replicate _ _).symm),
    List.drop_of_length_le (Nat.le_of_eq (List.length_replicate _ _)), List.nil_append]

theorem getElem?_replicate_zero (n i : Nat) (h : i < n) :
    (List.replicate n 0)[i]? = some 0 := by
  rw [List.getElem?_eq_getElem (by rw [List.length_replicate]; exact h)]
  simp

/-- Claim C9, as stated, fails: the inbox left by the drain of the message `hi`
has 4096 cells and a zero sentinel, yet the zero fill changes it (the cell after
the sentinel still held the second letter). -/
theorem C9_clear_counterexample :
    (drain (write (List.replicate BOX_SIZE 0) [104, 105, 0])).2.length = BOX_SIZE ∧
      is_occupied (drain (write (List.replicate BOX_SIZE 0) [104, 105, 0])).2 = false ∧
      (drain (write (List.replicate BOX_SIZE 0) [104, 105, 0])).2[1]? = some 105 ∧
      (clear (drain (write (List.replicate BOX_SIZE 0) [104, 105, 0])).2)[1]? = some 0 ∧
      clear (drain (write (List.replicate BOX_SIZE 0) [104, 105, 0])).2 ≠
        (drain (write (List.replicate BOX_SIZE 0) [104, 105, 0])).2 := by
  rw [drained_hi]
  have hrep : List.replicate BOX_SIZE 0 = 0 :: 0 :: List.replicate (BOX_SIZE - 2) 0 := rfl
  refine ⟨drained_hi_length, rfl, ?_, ?_, ?_⟩
  · show (0 :: 105 :: 0 :: List.replicate (BOX_SIZE - 2 - 1) 0)[1]? = some 105
    simp only [List.getElem?_cons_succ, List.getElem?_cons_zero]
  · show (clear (0 :: 105 :: 0 :: List.replicate (BOX_SIZE - 2 - 1) 0))[1]? = some 0
    rw [clear_eq _ drained_hi_length, hrep]
    simp only [List.getElem?_cons_succ, List.getElem?_cons_zero]
  · show clear (0 :: 105 :: 0 :: List.replicate (BOX_SIZE - 2 - 1) 0) ≠
      0 :: 105 :: 0 :: List.replicate (BOX_SIZE - 2 - 1) 0
    rw [clear_eq _ drained_hi_length, hrep]
    intro h
    exact absurd (List.cons.inj (List.cons.inj h).2).1 (by decide)

/-- Claim C9, amended (clear on an empty mailbox): the zero fill turns every
4096-cell mailbox into 4096 zero cells, and applied twice it equals itself applied
once on every array. For every 4096-cell mailbox whose sentinel is zero, the zero
fill therefore keeps the mailbox empty as the program observes it (`is_occupied`
stays false, the text a `%s` read gives stays the empty text, the sentinel stays
zero, the size stays 4096), while every cell it changes lies after the sentinel
and becomes zero; and it leaves the all-zero mailbox unchanged. -/
theorem C9_clear_empty (box : List Nat) :
    clear (clear box) = clear box ∧
      clear (List.replicate BOX_SIZE 0) = List.replicate BOX_SIZE 0 ∧
      (box.length = BOX_SIZE →
        clear box = List.replicate BOX_SIZE 0 ∧ (clear box).length = BOX_SIZE ∧
        (∀ i, i < BOX_SIZE → (clear box)[i]? = some 0) ∧
        is_occupied (clear box) = false ∧ cstr (clear box) = some []) ∧
      (box.length = BOX_SIZE → is_occupied box = false →
        is_occupied (clear box) = is_occupied box ∧ cstr (clear box) = cstr box ∧
        (clear box).headD 0 = box.headD 0 ∧ (clear box).length = box.length ∧
        (∀ i, (clear box)[i]? ≠ box[i]? →
          0 < i ∧ i < BOX_SIZE ∧ box[i]? ≠ some 0 ∧ (clear box)[i]? = some 0)) := by
  have hcc : clear (List.replicate BOX_SIZE 0) = List.replicate BOX_SIZE 0 :=
    clear_eq _ (List.length_replicate _ _)
  have hrep : List.replicate BOX_SIZE 0 = 0 :: List.replicate (BOX_SIZE - 1) 0 := rfl
  have hz : is_occupied (List.replicate BOX_SIZE 0) = false := by rw [hrep]; rfl
  have hcz : cstr (List.replicate BOX_SIZE 0) = some [] := by rw [hrep]; simp [cstr]
  have hhz : (List.replicate BOX_SIZE 0).headD 0 = 0 := by rw [hrep]; rfl
  refine ⟨clear_clear box, hcc, ?_, ?_⟩
  · intro hlen
    have hc : clear box = List.replicate BOX_SIZE 0 := clear_eq box hlen
    refine ⟨hc, ?_, ?_, ?_, ?_⟩
    · rw [hc]; exact List.length_replicate _ _
    · intro i hi
      rw [hc]
      exact getElem?_replicate_zero _ _ hi
    · rw [hc]; exact hz
    · rw [hc]; exact hcz
  · intro hlen hempty
    have hc : clear box = List.replicate BOX_SIZE 0 := clear_eq box hlen
    have hh : box.headD 0 = 0 := (is_occupied_eq_false box).mp hempty
    have hbox : cstr box = some [] := by
      cases box with
      | nil => exact absurd hlen (by decide)
      | cons c cs =>
        simp at hh
        simp [cstr, hh]
    refine ⟨?_, ?_, ?_, ?_, ?_⟩
    · rw [hempty, hc]; exact hz
    · rw [hbox, hc]; exact hcz
    · rw [hh, hc]; exact hhz
    · rw [hc, hlen]; exact List.length_replicate _ _
    · intro i hne
      rw [hc] at hne ⊢
      by_cases hi : i < BOX_SIZE
      · have hzi := getElem?_replicate_zero BOX_SIZE i hi
        rw [hzi] at hne
        refine ⟨?_, hi, fun e => hne e.symm, hzi⟩
        rcases Nat.eq_zero_or_pos i with h0 | h0
        · exfalso
          subst h0
          cases box with
          | nil => exact absurd hlen (by decide)
          | cons c cs =>
            simp at hh
            subst hh
            exact hne (by simp)
        · exact h0
      · exfalso
        apply hne
        rw [List.getElem?_eq_none (by rw [List.length_replicate]; omega),
          List.getElem?_eq_none (by omega)]

theorem C9_clear_empty_witness :
    (0 :: 105 :: 0 :: List.replicate (BOX_SIZE - 2 - 1) 0).length = BOX_SIZE ∧
      is_occupied (0 :: 105 :: 0 :: List.replicate (BOX_SIZE - 2 - 1) 0) = false ∧
      cstr (clear (0 :: 105 :: 0 :: List.replicate (BOX_SIZE - 2 - 1) 0)) =
        cstr (0 :: 105 :: 0 :: List.replicate (BOX_SIZE - 2 - 1) 0) ∧
      clear (0 :: 105 :: 0 :: List.replicate (BOX_SIZE - 2 - 1) 0) = List.replicate BOX_SIZE 0 :=
  ⟨drained_hi_length, rfl,
    ((C9_clear_empty (0 :: 105 :: 0 :: List.replicate (BOX_SIZE - 2 - 1) 0)).2.2.2
      drained_hi_length rfl).2.1,
    ((C9_clear_empty (0 :: 105 :: 0 :: List.replicate (BOX_SIZE - 2 - 1) 0)).2.2.1
      drained_hi_length).1⟩

/-! ## Region names -/

/-- With enough fuel, `decDigits` is the base-10 digit list of Mathlib. -/
theorem decDigits_eq_digits (f n : Nat) (h : n ≤ f) : decDigits f n = Nat.digits 10 n := by
  induction f generalizing n with
  | zero =>
    have : n = 0 := by omega
    subst this
    simp [decDigits]
  | succ k ih =>
    by_cases hn : n = 0
    · subst hn
      simp [decDigits]
    · have hpos : 0 < n := Nat.pos_of_ne_zero hn
      have hdiv : n / 10 ≤ k := by omega
      rw [Nat.digits_def' (by decide) hpos]
      simp [decDigits, hn, ih (n / 10) hdiv]

theorem digitChar_injOn (a b : Nat) (ha : a < 10) (hb : b < 10)
    (h : digitChar a = digitChar b) : a = b := by
  interval_cases a <;> interval_cases b <;> first | rfl | (exact absurd h (by decide))

theorem digitChar_ne_minus (a : Nat) (ha : a < 10) : digitChar a ≠ '-' := by
  interval_cases a <;> decide

theorem digitChar_zero_iff (a : Nat) (ha : a < 10) : digitChar a = '0' ↔ a = 0 := by
  interval_cases a <;> decide

theorem map_digitChar_inj (l1 l2 : List Nat) (h1 : ∀ x ∈ l1, x < 10) (h2 : ∀ x ∈ l2, x < 10)
    (h : l1.map digitChar = l2.map digitChar) : l1 = l2 := by
  induction l1 generalizing l2 with
  | nil =>
    cases l2 with
    | nil => rfl
    | cons b bs => simp at h
  | cons a as ih =>
    cases l2 with
    | nil => simp at h
    | cons b bs =>
      simp only [List.map_cons, List.cons.injEq] at h
      have hab : a = b :=
        digitChar_injOn a b (h1 a (List.mem_cons_self _ _)) (h2 b (List.mem_cons_self _ _)) h.1
      have hrest : as = bs :=
        ih bs (fun x hx => h1 x (List.mem_cons_of_mem _ hx))
          (fun x hx => h2 x (List.mem_cons_of_mem _ hx)) h.2
      rw [hab, hrest]

/-- The decimal digit text of a natural number determines the number. -/
theorem digitText_inj (a b : Nat)
    (h : (Nat.digits 10 a).reverse.map digitChar = (Nat.digits 10 b).reverse.map digitChar) :
    a = b := by
  have hrev : (Nat.digits 10 a).reverse = (Nat.digits 10 b).reverse :=
    map_digitChar_inj _ _
      (fun x hx => Nat.digits_lt_base (by decide) (List.mem_reverse.mp hx))
      (fun x hx => Nat.digits_lt_base (by decide) (List.mem_reverse.mp hx)) h
  exact Nat.digits.injective 10 (List.reverse_injective hrev)

/-- The decimal digit text of a non-zero number starts with a non-zero digit. -/
theorem digitText_head (n : Nat) (hn : n ≠ 0) :
    ∃ c cs, (Nat.digits 10 n).reverse.map digitChar = c :: cs ∧ c ≠ '-' ∧ c ≠ '0' := by
  have hlt : ∀ x ∈ Nat.digits 10 n, x < 10 := fun x hx => Nat.digits_lt_base (by decide) hx
  have hne : Nat.digits 10 n ≠ [] := Nat.digits_ne_nil_iff_ne_zero.mpr hn
  have hlast : (Nat.digits 10 n).getLast hne ≠ 0 := Nat.getLast_digit_ne_zero 10 hn
  revert hlt hlast
  generalize Nat.digits 10 n = l at hne
  intro hlt hlast
  rcases List.eq_nil_or_concat l with h | ⟨init, d, h⟩
  · exact absurd h hne
  · subst h
    have hd : d < 10 := hlt d (by simp)
    have hd0 : d ≠ 0 := by simpa using hlast
    refine ⟨digitChar d, init.reverse.map digitChar, by simp, digitChar_ne_minus d hd, ?_⟩
    intro h0
    exact hd0 ((digitChar_zero_iff d hd).mp h0)

theorem digitText_length (n : Nat) (hn : n ≤ 2147483648) :
    ((Nat.digits 10 n).reverse.map digitChar).length ≤ 10 := by
  rw [List.length_map, List.length_reverse]
  by_cases h0 : n = 0
  · subst h0
    simp
  · have h := Nat.base_pow_length_digits_le 10 n (by decide) h0
    by_contra hlen
    have h11 : 11 ≤ (Nat.digits 10 n).length := by omega
    have hpow : 10 ^ 11 ≤ 10 ^ (Nat.digits 10 n).length :=
      Nat.pow_le_pow_right (by decide) h11
    have : (10 : Nat) ^ 11 = 100000000000 := by norm_num
    omega

/-- The `%d` text written with the digit list of Mathlib. -/
theorem fmt_d_eq (v : Int) :
    fmt_d v = (if v < 0 then ['-'] else []) ++
      (if v = 0 then ['0'] else ((Nat.digits 10 v.natAbs).reverse.map digitChar)) := by
  unfold fmt_d
  rw [decDigits_eq_digits _ _ (Nat.le_refl _)]

theorem fmt_d_zero : fmt_d 0 = ['0'] := by
  rw [fmt_d_eq]
  rfl

theorem fmt_d_neg (v : Int) (hv : v < 0) :
    fmt_d v = '-' :: (Nat.digits 10 v.natAbs).reverse.map digitChar := by
  have h0 : v ≠ 0 := by omega
  rw [fmt_d_eq, if_pos hv, if_neg h0]
  rfl

theorem fmt_d_pos (v : Int) (hv : 0 < v) :
    fmt_d v = (Nat.digits 10 v.natAbs).reverse.map digitChar := by
  have h0 : v ≠ 0 := by omega
  have hn : ¬ v < 0 := by omega
  rw [fmt_d_eq, if_neg hn, if_neg h0]
  rfl

/-- The `%d` conversion is injective. -/
theorem fmt_d_inj (v w : Int) (h : fmt_d v = fmt_d w) : v = w := by
  rcases lt_trichotomy v 0 with hv | hv | hv <;> rcases lt_trichotomy w 0 with hw | hw | hw
  · rw [fmt_d_neg v hv, fmt_d_neg w hw] at h
    have := digitText_inj _ _ (List.cons.inj h).2
    omega
  · exfalso
    rw [fmt_d_neg v hv, hw, fmt_d_zero] at h
    exact absurd (List.cons.inj h).1 (by decide)
  · exfalso
    obtain ⟨d, ds, hd, hd1, _⟩ := digitText_head w.natAbs (by omega)
    rw [fmt_d_neg v hv, fmt_d_pos w hw, hd] at h
    exact hd1 (List.cons.inj h).1.symm
  · exfalso
    rw [fmt_d_neg w hw, hv, fmt_d_zero] at h
    exact absurd (List.cons.inj h).1 (by decide)
  · rw [hv, hw]
  · exfalso
    obtain ⟨d, ds, hd, _, hd2⟩ := digitText_head w.natAbs (by omega)
    rw [fmt_d_pos w hw, hv, fmt_d_zero, hd] at h
    exact hd2 (List.cons.inj h).1.symm
  · exfalso
    obtain ⟨c, cs, hc, hc1, _⟩ := digitText_head v.natAbs (by omega)
    rw [fmt_d_pos v hv, fmt_d_neg w hw, hc] at h
    exact hc1 (List.cons.inj h).1
  · exfalso
    obtain ⟨c, cs, hc, _, hc2⟩ := digitText_head v.natAbs (by omega)
    rw [fmt_d_pos v hv, hw, fmt_d_zero, hc] at h
    exact hc2 (List.cons.inj h).1
  · rw [fmt_d_pos v hv, fmt_d_pos w hw] at h
    have := digitText_inj _ _ h
    omega

theorem fmt_d_length (v : Int) (hv : isPid v) : (fmt_d v).length ≤ 11 := by
  have hn : v.natAbs ≤ 2147483648 := by
    unfold isPid at hv
    omega
  have hlen := digitText_length v.natAbs hn
  rcases lt_trichotomy v 0 with h | h | h
  · rw [fmt_d_neg v h, List.length_cons]
    omega
  · rw [h, fmt_d_zero]
    decide
  · rw [fmt_d_pos v h]
    omega

/-- For a `pid_t` value `snprintf` does not truncate the name. -/
theorem region_name_eq (p : Int) (hp : isPid p) :
    region_name p = String.mk ('/' :: (fmt_d p ++ ['-', 'c', 'h', 'a', 't'])) := by
  unfold region_name snprintf
  rw [List.take_of_length_le]
  have := fmt_d_length p hp
  simp only [List.length_cons, List.length_append, List.length_nil, NAME_MAX]
  omega

theorem region_name_inj (p q : Int) (hp : isPid p) (hq : isPid q)
    (h : region_name p = region_name q) : p = q := by
  rw [region_name_eq p hp, region_name_eq q hq] at h
  have h1 := congrArg String.data h
  exact fmt_d_inj p q (List.append_cancel_right (List.cons.inj h1).2)

/-! ## The shared-memory namespace -/

theorem Shm.empty_WF : Shm.empty.WF :=
  ⟨fun _ _ h => by simp [Shm.empty] at h, fun _ _ _ h => by simp [Shm.empty] at h⟩

theorem Shm.shm_open_names_self (s : Shm) (name : String) :
    (s.shm_open name).1.names name = some (s.shm_open name).2 := by
  unfold Shm.shm_open
  cases h : s.names name with
  | none => simp
  | some id => simp [h]

theorem Shm.shm_open_names_other (s : Shm) (name n : String) (hn : n ≠ name) :
    (s.shm_open name).1.names n = s.names n := by
  unfold Shm.shm_open
  cases h : s.names name with
  | none => simp [hn]
  | some id => simp

theorem Shm.shm_open_present (s : Shm) (name : String) (id : Nat) (h : s.names name = some id) :
    s.shm_open name = (s, id) := by
  unfold Shm.shm_open
  simp [h]

theorem Shm.shm_open_absent (s : Shm) (name : String) (h : s.names name = none) :
    (s.shm_open name).2 = s.next ∧ (s.shm_open name).1.objs s.next = [] := by
  unfold Shm.shm_open
  simp [h]

theorem Shm.shm_open_objs (s : Shm) (name : String) (id : Nat) (hid : id < s.next) :
    (s.shm_open name).1.objs id = s.objs id := by
  unfold Shm.shm_open
  cases h : s.names name with
  | none =>
    have : id ≠ s.next := by omega
    simp [this]
  | some j => simp

theorem Shm.shm_open_WF (s : Shm) (name : String) (h : s.WF) : (s.shm_open name).1.WF := by
  unfold Shm.shm_open
  cases hn : s.names name with
  | some id => simpa using h
  | none =>
    obtain ⟨h1, h2⟩ := h
    refine ⟨?_, ?_⟩
    · intro n id hid
      by_cases e : n = name
      · simp [e] at hid
        simp only []
        omega
      · simp [e] at hid
        have := h1 n id hid
        simp only []
        omega
    · intro n m id hn' hm'
      by_cases en : n = name <;> by_cases em : m = name
      · rw [en, em]
      · simp [en, em] at hn' hm'
        have := h1 m id hm'
        omega
      · simp [en, em] at hn' hm'
        have := h1 n id hn'
        omega
      · simp [en, em] at hn' hm'
        exact h2 n m id hn' hm'

theorem Shm.shm_open_next_le (s : Shm) (name : String) : s.next ≤ (s.shm_open name).1.next := by
  unfold Shm.shm_open
  cases hn : s.names name <;> simp

theorem memset_zero_eq (l : List Nat) (h : l.length = BOX_SIZE) :
    memset l 0 BOX_SIZE = List.replicate BOX_SIZE 0 :=
  clear_eq l h

/-- What one successful `setup_inbox_for` does to a well-formed namespace: the
name denotes the returned object, which has `BOX_SIZE` cells; other names and the
other objects allocated so far are untouched. -/
theorem setup_inbox_for_spec (s : Shm) (pid : Int) (hwf : s.WF) :
    ∃ s1 id, setup_inbox_for none s pid = Except.ok (s1, region_name pid, id) ∧
      s1.names (region_name pid) = some id ∧
      (∀ n, n ≠ region_name pid → s1.names n = s.names n) ∧
      (s1.objs id).length = BOX_SIZE ∧
      (∀ j, j < s.next → j ≠ id → s1.objs j = s.objs j) ∧
      s1.WF ∧ s.next ≤ s1.next ∧ id < s1.next ∧
      (∀ i, s.names (region_name pid) = some i → id = i) ∧
      (s.names (region_name pid) = none → id = s.next) := by
  refine ⟨(s.shm_open (region_name pid)).1.ftruncate (s.shm_open (region_name pid)).2 BOX_SIZE,
    (s.shm_open (region_name pid)).2, ?_, ?_, ?_, ?_, ?_, ?_, ?_, ?_, ?_, ?_⟩
  · simp [setup_inbox_for]
  · exact Shm.shm_open_names_self s _
  · intro n hn
    exact Shm.shm_open_names_other s _ n hn
  · simp only [Shm.ftruncate, if_true, List.length_append, List.length_take,
      List.length_replicate]
    omega
  · intro j hj hne
    simp only [Shm.ftruncate, if_neg hne]
    exact Shm.shm_open_objs s _ j hj
  · exact Shm.shm_open_WF s _ hwf
  · exact Shm.shm_open_next_le s _
  · exact (Shm.shm_open_WF s _ hwf).1 _ _ (Shm.shm_open_names_self s _)
  · intro i hi
    rw [Shm.shm_open_present s _ i hi]
  · intro hnone
    exact (Shm.shm_open_absent s _ hnone).1

/-- What a successful `setup_inboxes` does to a well-formed namespace. -/
theorem setup_inboxes_spec (p : Proc) (s : Shm) (hwf : s.WF) :
    ∃ mine other s1,
      setup_inboxes none none p s =
        Except.ok ({ p with my_inbox := some mine, other_inbox := some other
                            my_inbox_shm_open_name := region_name p.pid
                            other_inbox_shm_open_name := region_name p.other_pid }, s1) ∧
      s1.names (region_name p.pid) = some mine ∧
      s1.names (region_name p.other_pid) = some other ∧
      (∀ n, n ≠ region_name p.pid → n ≠ region_name p.other_pid → s1.names n = s.names n) ∧
      s1.objs mine = List.replicate BOX_SIZE 0 ∧
      s1.objs other = List.replicate BOX_SIZE 0 ∧
      (∀ j, j < s.next → j ≠ mine → j ≠ other → s1.objs j = s.objs j) ∧
      s1.WF ∧
      (s.names (region_name p.other_pid) = none → region_name p.other_pid ≠ region_name p.pid →
        other ≠ mine ∧ s.next ≤ other) ∧
      (∀ i, s.names (region_name p.other_pid) = some i → other = i) := by
  obtain ⟨sA, mine, hA, hAn, hAo, hAlen, hAobj, hAwf, hAnext, hAid, hApres, hAabs⟩ :=
    setup_inbox_for_spec s p.pid hwf
  obtain ⟨sB, other, hB, hBn, hBo, hBlen, hBobj, hBwf, hBnext, hBid, hBpres, hBabs⟩ :=
    setup_inbox_for_spec sA p.other_pid hAwf
  have hmineB : sB.names (region_name p.pid) = some mine := by
    by_cases e : region_name p.pid = region_name p.other_pid
    · have : other = mine := hBpres mine (e ▸ hAn)
      rw [e, hBn, this]
    · rw [hBo _ e, hAn]
  have hlenMine : (sB.objs mine).length = BOX_SIZE := by
    by_cases e : mine = other
    · rw [e]; exact hBlen
    · rw [hBobj mine hAid e]; exact hAlen
  refine ⟨mine, other,
    (sB.store mine (memset (sB.objs mine) 0 BOX_SIZE)).store other
      (memset ((sB.store mine (memset (sB.objs mine) 0 BOX_SIZE)).objs other) 0 BOX_SIZE),
    ?_, hmineB, hBn, ?_, ?_, ?_, ?_, hBwf, ?_, ?_⟩
  · simp [setup_inboxes, hA, hB]
  · intro n h1 h2
    show sB.names n = s.names n
    rw [hBo n h2, hAo n h1]
  · by_cases e : mine = other
    · subst e
      simp only [Shm.store, if_true]
      exact memset_zero_eq _ (by rw [memset_zero_eq _ hlenMine]; exact List.length_replicate _ _)
    · simp only [Shm.store, if_neg e, if_true]
      exact memset_zero_eq _ hlenMine
  · simp only [Shm.store, if_true]
    by_cases e : other = mine
    · simp only [if_pos e]
      exact memset_zero_eq _ (by rw [memset_zero_eq _ hlenMine]; exact List.length_replicate _ _)
    · simp only [if_neg e]
      exact memset_zero_eq _ hBlen
  · intro j hj h1 h2
    simp only [Shm.store, if_neg h1, if_neg h2]
    rw [hBobj j (by omega) h2, hAobj j hj h1]
  · intro hnone hne
    have hA2 : sA.names (region_name p.other_pid) = none := by rw [hAo _ hne, hnone]
    have ho : other = sA.next := hBabs hA2
    constructor <;> omega
  · intro i hi
    by_cases e : region_name p.other_pid = region_name p.pid
    · have h1 : mine = i := hApres i (e ▸ hi)
      have h2 : other = mine := hBpres mine (e ▸ hAn)
      rw [h2, h1]
    · exact hBpres i (by rw [hAo _ e, hi])

/-! ## Claims on names, setup and teardown -/

theorem toPid_isPid (v : Int) : isPid (toPid v) := by
  unfold isPid toPid
  omega

theorem toPid_of_isPid (v : Int) (h : isPid v) : toPid v = v := by
  unfold isPid at h
  unfold toPid
  omega

/-- Claim C10 (region naming): for `pid_t` values `p` and `q`, the name built for
`p` is a slash, the base-10 text of `p` (a minus sign when negative, then the
decimal digits, most significant first) and `-chat`; two names are equal exactly
when the identities are; and when `p` differs from `q`, a process `p` with peer `q`
that sets up its inboxes stores these two different names and maps two different
objects. -/
theorem C10_region_naming (p q : Int) (hp : isPid p) (hq : isPid q) :
    region_name p = String.mk ('/' :: (fmt_d p ++ ['-', 'c', 'h', 'a', 't'])) ∧
      fmt_d p = (if p < 0 then ['-'] else []) ++
        (if p = 0 then ['0'] else ((Nat.digits 10 p.natAbs).reverse.map digitChar)) ∧
      (region_name p = region_name q ↔ p = q) ∧
      (∀ s : Shm, s.WF → p ≠ q →
        ∃ mine other pr s1, setup_inboxes none none (Proc.start p q) s = Except.ok (pr, s1) ∧
          pr.my_inbox_shm_open_name = region_name p ∧
          pr.other_inbox_shm_open_name = region_name q ∧
          pr.my_inbox_shm_open_name ≠ pr.other_inbox_shm_open_name ∧
          pr.my_inbox = some mine ∧ pr.other_inbox = some other ∧ mine ≠ other) := by
  have hinj : region_name p = region_name q ↔ p = q :=
    ⟨region_name_inj p q hp hq, fun h => by rw [h]⟩
  refine ⟨region_name_eq p hp, fmt_d_eq p, hinj, ?_⟩
  intro s hwf hpq
  obtain ⟨mine, other, s1, hset, hn1, hn2, -, -, -, -, hwf1, -, -⟩ :=
    setup_inboxes_spec (Proc.start p q) s hwf
  have hne : region_name p ≠ region_name q := fun h => hpq (hinj.mp h)
  refine ⟨mine, other, _, s1, hset, rfl, rfl, hne, rfl, rfl, ?_⟩
  intro hmo
  exact hne (hwf1.2 _ _ mine hn1 (hmo ▸ hn2))

theorem C10_region_naming_witness :
    isPid 1234 ∧ isPid (-5) ∧ region_name 1234 = "/1234-chat" ∧ region_name (-5) = "/-5-chat" ∧
      (region_name 1234 = region_name (-5) ↔ (1234 : Int) = -5) :=
  ⟨by decide, by decide, by decide, by decide,
    (C10_region_naming 1234 (-5) (by decide) (by decide)).2.2.1⟩

/-- A namespace in which the peer's region `/2-chat` exists and holds the
undrained message `hi`. -/
theorem peerRegion_WF :
    (({ names := fun n => if n = "/2-chat" then some 0 else none
        objs := fun i => if i = 0 then write (List.replicate BOX_SIZE 0) [104, 105, 0] else []
        next := 1 } : Shm)).WF := by
  refine ⟨?_, ?_⟩
  · intro n id h
    by_cases e : n = "/2-chat"
    · simp [e] at h
      subst h
      exact Nat.zero_lt_one
    · simp [e] at h
  · intro n m id hn hm
    by_cases e : n = "/2-chat" <;> by_cases e2 : m = "/2-chat" <;> simp [e, e2] at hn hm
    rw [e, e2]

/-- Claim C8, as stated, fails: from the empty namespace, the setup of process 1
with peer 2 creates the peer's region `/2-chat`; and from a namespace where that
region holds the message `hi`, the setup replaces its content by zeros. -/
theorem C8_setup_counterexample :
    (Shm.empty.names "/2-chat" = none ∧
      ∃ pr s1, setup_inboxes none none (Proc.start 1 2) Shm.empty = Except.ok (pr, s1) ∧
        s1.names "/2-chat" ≠ none) ∧
    (∃ pr s1, setup_inboxes none none (Proc.start 1 2)
        { names := fun n => if n = "/2-chat" then some 0 else none
          objs := fun i => if i = 0 then write (List.replicate BOX_SIZE 0) [104, 105, 0] else []
          next := 1 } = Except.ok (pr, s1) ∧
      pr.other_inbox = some 0 ∧
      cstr (write (List.replicate BOX_SIZE 0) [104, 105, 0]) = some [104, 105] ∧
      cstr (s1.objs 0) = some []) := by
  have hname : region_name 2 = "/2-chat" := by decide
  refine ⟨⟨rfl, ?_⟩, ?_⟩
  · obtain ⟨mine, other, s1, hset, -, hn2, -⟩ :=
      setup_inboxes_spec (Proc.start 1 2) Shm.empty Shm.empty_WF
    refine ⟨_, s1, hset, ?_⟩
    have h2 : s1.names "/2-chat" = some other := by rw [← hname]; exact hn2
    rw [h2]
    simp
  · obtain ⟨mine, other, s1, hset, -, -, -, -, hzero, -, -, -, hpres⟩ :=
      setup_inboxes_spec (Proc.start 1 2) _ peerRegion_WF
    have ho : other = 0 := hpres 0 (by
      show (if region_name 2 = "/2-chat" then some 0 else none) = some 0
      rw [if_pos hname])
    subst ho
    refine ⟨_, s1, hset, rfl, ?_, ?_⟩
    · have h2 : ([104, 105, 0] : List Nat) = [104, 105] ++ 0 :: ([] : List Nat) := rfl
      rw [h2, write_text _ [104, 105] [] (by decide) (by decide)]
      exact cstr_text_append [104, 105] _ (by decide)
    · rw [hzero]
      have hrep : List.replicate BOX_SIZE 0 = 0 :: List.replicate (BOX_SIZE - 1) 0 := rfl
      rw [hrep]
      simp [cstr]

/-- Claim C8, amended (inbox lifecycle): from every well-formed namespace, session
setup opens both regions, creating each of them (the peer's included) when it is
absent, and zero-fills both mailboxes (the peer's included); every other name and
the content of the region it denotes are left as they were; and the teardown that
follows unlinks the session's own name only. -/
theorem C8_lifecycle (p : Proc) (s : Shm) (hwf : s.WF) :
    ∃ mine other pr s1, setup_inboxes none none p s = Except.ok (pr, s1) ∧
      pr.my_inbox = some mine ∧ pr.other_inbox = some other ∧
      s1.names (region_name p.pid) = some mine ∧
      s1.names (region_name p.other_pid) = some other ∧
      s1.objs mine = List.replicate BOX_SIZE 0 ∧
      s1.objs other = List.replicate BOX_SIZE 0 ∧
      (∀ n, n ≠ region_name p.pid → n ≠ region_name p.other_pid →
        s1.names n = s.names n ∧ ∀ j, s.names n = some j → s1.objs j = s.objs j) ∧
      (cleanup_inboxes pr s1).2.names (region_name p.pid) = none ∧
      (∀ n, n ≠ region_name p.pid → (cleanup_inboxes pr s1).2.names n = s1.names n) := by
  obtain ⟨mine, other, s1, hset, hn1, hn2, hnames, hz1, hz2, hobjs, hwf1, -, -⟩ :=
    setup_inboxes_spec p s hwf
  refine ⟨mine, other, _, s1, hset, rfl, rfl, hn1, hn2, hz1, hz2, ?_, ?_, ?_⟩
  · intro n h1 h2
    refine ⟨hnames n h1 h2, ?_⟩
    intro j hj
    have hj1 : s1.names n = some j := by rw [hnames n h1 h2, hj]
    apply hobjs j (hwf.1 n j hj)
    · intro e
      exact h1 (hwf1.2 _ _ j hj1 (e ▸ hn1))
    · intro e
      exact h2 (hwf1.2 _ _ j hj1 (e ▸ hn2))
  · simp [cleanup_inboxes, Shm.shm_unlink]
  · intro n hn
    simp [cleanup_inboxes, Shm.shm_unlink, hn]

theorem C8_lifecycle_witness :
    Shm.empty.WF ∧
      ∃ mine other pr s1,
        setup_inboxes none none (Proc.start 1 2) Shm.empty = Except.ok (pr, s1) ∧
        pr.my_inbox = some mine ∧ pr.other_inbox = some other ∧
        s1.names (region_name (Proc.start 1 2).pid) = some mine ∧
        s1.names (region_name (Proc.start 1 2).other_pid) = some other ∧
        s1.objs mine = List.replicate BOX_SIZE 0 ∧
        s1.objs other = List.replicate BOX_SIZE 0 ∧
        (∀ n, n ≠ region_name (Proc.start 1 2).pid → n ≠ region_name (Proc.start 1 2).other_pid →
          s1.names n = Shm.empty.names n ∧
            ∀ j, Shm.empty.names n = some j → s1.objs j = Shm.empty.objs j) ∧
        (cleanup_inboxes pr s1).2.names (region_name (Proc.start 1 2).pid) = none ∧
        (∀ n, n ≠ region_name (Proc.start 1 2).pid →
          (cleanup_inboxes pr s1).2.names n = s1.names n) :=
  ⟨Shm.empty_WF, C8_lifecycle (Proc.start 1 2) Shm.empty Shm.empty_WF⟩

/-- Claim C5 (teardown unlinks only the owned region): for a running process that
has set up its inboxes, on each of the three termination paths both mappings are
removed, the name built from the process's own identity is removed from the
namespace, every other name denotes what it did before, no region content
changes, and in particular the peer's name is untouched when the peer's identity
differs from the local one. -/
theorem C5_teardown (t : Termination) (m : Main) (p : Proc) (s : Shm)
    (hrun : p.status = none) (hname : p.my_inbox_shm_open_name = region_name p.pid) :
    (terminate t m p s).1.my_inbox = none ∧ (terminate t m p s).1.other_inbox = none ∧
      (terminate t m p s).2.names (region_name p.pid) = none ∧
      (∀ n, n ≠ region_name p.pid → (terminate t m p s).2.names n = s.names n) ∧
      (terminate t m p s).2.objs = s.objs ∧
      (isPid p.pid → isPid p.other_pid → p.other_pid ≠ p.pid →
        (terminate t m p s).2.names (region_name p.other_pid) =
          s.names (region_name p.other_pid)) := by
  have hfg : fgets m.message BOX_SIZE [] = none := rfl
  have key : (terminate t m p s).1.my_inbox = none ∧ (terminate t m p s).1.other_inbox = none ∧
      (terminate t m p s).2 = s.shm_unlink (region_name p.pid) := by
    cases t
    · simp [terminate, mainStep, hrun, hfg, cleanup_inboxes, hname]
    · simp [terminate, signal_handler, cleanup_inboxes, hname]
    · simp [terminate, signal_handler, cleanup_inboxes, hname]
  obtain ⟨h1, h2, h3⟩ := key
  have hother : ∀ n, n ≠ region_name p.pid → (terminate t m p s).2.names n = s.names n := by
    intro n hn
    rw [h3]
    simp [Shm.shm_unlink, hn]
  refine ⟨h1, h2, ?_, hother, ?_, ?_⟩
  · rw [h3]
    simp [Shm.shm_unlink]
  · rw [h3]
    rfl
  · intro hp hq hne
    exact hother _ (fun e => hne (region_name_inj _ _ hq hp e))

theorem C5_teardown_witness :
    (Proc.start 1 2).status = none ∧
      ({ Proc.start 1 2 with my_inbox_shm_open_name := region_name 1 } : Proc).my_inbox_shm_open_name
        = region_name 1 ∧
      (terminate Termination.interrupt { pc := PC.poll, stdin := [], message := [] }
        { Proc.start 1 2 with my_inbox_shm_open_name := region_name 1 }
        (Shm.empty.shm_open (region_name 1)).1).2.names (region_name 1) = none :=
  ⟨rfl, rfl, (C5_teardown Termination.interrupt { pc := PC.poll, stdin := [], message := [] }
    { Proc.start 1 2 with my_inbox_shm_open_name := region_name 1 }
    (Shm.empty.shm_open (region_name 1)).1 rfl rfl).2.2.1⟩

/-- In a system of two running processes where `b` is the peer named by `a`, a
local interrupt of `a` runs the `SIGINT` branch in `a` and then the `SIGTERM`
branch in `b`. -/
theorem interrupt_eq (a b : Proc) (s : Shm) (ha : a.status = none) (hb : b.status = none)
    (hab : a.other_pid = b.pid) :
    sentTo (signal_handler Signal.SIGINT a s).1 a.kills.length b.pid = [Signal.SIGTERM] ∧
      interrupt a b s =
        ((signal_handler Signal.SIGINT a s).1,
          signal_handler Signal.SIGTERM b (signal_handler Signal.SIGINT a s).2) := by
  have hk : (signal_handler Signal.SIGINT a s).1.kills =
      a.kills ++ [(b.pid, Signal.SIGTERM)] := by
    rw [← hab]
    rfl
  have hsent : sentTo (signal_handler Signal.SIGINT a s).1 a.kills.length b.pid =
      [Signal.SIGTERM] := by
    unfold sentTo
    rw [hk, List.drop_left']
    · simp
    · rfl
  have hda : deliver Signal.SIGINT a s = signal_handler Signal.SIGINT a s := by
    simp [deliver, ha]
  refine ⟨hsent, ?_⟩
  unfold interrupt
  rw [hda, hsent]
  simp [deliverAll, deliver, hb]

/-- Claim C6 (termination propagation): in a system of two running processes
where `b` is the peer named by `a`, when `a` handles a local interrupt it removes
its mappings and its own region name, sends exactly one signal, a `SIGTERM`
addressed to `b`, and ends with exit status 0; `b` is delivered that one
`SIGTERM`, removes its mappings and its own region name and ends with exit status
0 having sent no signal to anyone. Afterwards neither region name is in the
namespace, every other name is as before, and no region content has changed. -/
theorem C6_termination_propagation (a b : Proc) (s : Shm) (ha : a.status = none)
    (hb : b.status = none) (hab : a.other_pid = b.pid) :
    (interrupt a b s).1.kills = a.kills ++ [(b.pid, Signal.SIGTERM)] ∧
      sentTo (interrupt a b s).1 a.kills.length b.pid = [Signal.SIGTERM] ∧
      (interrupt a b s).1.status = some (Exit.code 0) ∧
      (interrupt a b s).1.my_inbox = none ∧
      (interrupt a b s).1.other_inbox = none ∧
      (interrupt a b s).2.1.kills = b.kills ∧
      (interrupt a b s).2.1.status = some (Exit.code 0) ∧
      (interrupt a b s).2.1.my_inbox = none ∧
      (interrupt a b s).2.1.other_inbox = none ∧
      (interrupt a b s).2.2.names a.my_inbox_shm_open_name = none ∧
      (interrupt a b s).2.2.names b.my_inbox_shm_open_name = none ∧
      (∀ n, n ≠ a.my_inbox_shm_open_name → n ≠ b.my_inbox_shm_open_name →
        (interrupt a b s).2.2.names n = s.names n) ∧
      (interrupt a b s).2.2.objs = s.objs := by
  obtain ⟨hsent, heq⟩ := interrupt_eq a b s ha hb hab
  rw [heq]
  refine ⟨?_, hsent, rfl, rfl, rfl, rfl, rfl, rfl, rfl, ?_, ?_, ?_, rfl⟩
  · rw [← hab]
    rfl
  · simp [signal_handler, cleanup_inboxes, Shm.shm_unlink]
  · simp [signal_handler, cleanup_inboxes, Shm.shm_unlink]
  · intro n h1 h2
    simp [signal_handler, cleanup_inboxes, Shm.shm_unlink, h1, h2]

theorem C6_termination_propagation_witness :
    (Proc.start 1 2).status = none ∧ (Proc.start 2 1).status = none ∧
      (Proc.start 1 2).other_pid = (Proc.start 2 1).pid ∧
      (interrupt (Proc.start 1 2) (Proc.start 2 1) Shm.empty).1.kills =
        (Proc.start 1 2).kills ++ [((Proc.start 2 1).pid, Signal.SIGTERM)] ∧
      (interrupt (Proc.start 1 2) (Proc.start 2 1) Shm.empty).2.1.kills =
        (Proc.start 2 1).kills :=
  ⟨rfl, rfl, rfl,
    (C6_termination_propagation (Proc.start 1 2) (Proc.start 2 1) Shm.empty rfl rfl rfl).1,
    (C6_termination_propagation (Proc.start 1 2) (Proc.start 2 1) Shm.empty rfl rfl rfl).2.2.2.2.2.1⟩

/-- Claim C7 fails on the code at the line `4294967296`: `strtol` gives the
non-zero value 4294967296, the assignment to the 32-bit `other_pid` stores 0 and
the loop asks again (it then accepts the next line, `7`); and at the line
`4294967297` the loop stops with `other_pid` equal to 1, which is not the parsed
value. -/
theorem C7_identity_truncation :
    strtol [52, 50, 57, 52, 57, 54, 55, 50, 57, 54, 10] = 4294967296 ∧
      readPeerIdentity [52, 50, 57, 52, 57, 54, 55, 50, 57, 54, 10] = (0, true) ∧
      awaitPeerIdentity [[52, 50, 57, 52, 57, 54, 55, 50, 57, 54, 10], [55, 10]] = some 7 ∧
      strtol [52, 50, 57, 52, 57, 54, 55, 50, 57, 55, 10] = 4294967297 ∧
      awaitPeerIdentity [[52, 50, 57, 52, 57, 54, 55, 50, 57, 55, 10]] = some 1 := by
  decide

/-- On lines whose parsed value fits `pid_t`, the identity loop does what claim C7
says: the line is accepted exactly when the parsed value is non-zero, and the
value stored is the parsed value; the value stored on leaving the loop is never
zero and is always a `pid_t` value. -/
theorem identity_in_range (line : List Nat) (rest : List (List Nat)) :
    (isPid (strtol line) →
      ((readPeerIdentity line).2 = false ↔ strtol line ≠ 0) ∧
      (readPeerIdentity line).1 = strtol line ∧
      (strtol line ≠ 0 → awaitPeerIdentity (line :: rest) = some (strtol line)) ∧
      (strtol line = 0 → awaitPeerIdentity (line :: rest) = awaitPeerIdentity rest)) ∧
    (∀ lines v, awaitPeerIdentity lines = some v → v ≠ 0 ∧ isPid v) := by
  constructor
  · intro h
    have e := toPid_of_isPid _ h
    simp only [readPeerIdentity, awaitPeerIdentity, e]
    by_cases h0 : strtol line = 0 <;> simp [h0]
  · intro lines
    induction lines with
    | nil => intro v hv; simp [awaitPeerIdentity] at hv
    | cons l ls ih =>
      intro v hv
      by_cases h0 : toPid (strtol l) = 0
      · simp [awaitPeerIdentity, readPeerIdentity, h0] at hv
        exact ih v hv
      · simp [awaitPeerIdentity, readPeerIdentity, h0] at hv
        subst hv
        exact ⟨h0, toPid_isPid _⟩

/-! ## The send loop keeps a single message in flight -/

theorem is_occupied_markEmpty (box : List Nat) : is_occupied (markEmpty box) = false :=
  (is_occupied_eq_false _).mpr (markEmpty_headD box)

/-- A drain by the peer never makes any mailbox occupied. -/
theorem drain_keeps_empty (b : Proc) (s : Shm) (id : Nat)
    (h : is_occupied (s.objs id) = false) :
    is_occupied ((signal_handler Signal.SIGUSR1 b s).2.objs id) = false := by
  cases hb : b.my_inbox with
  | none =>
    simp only [signal_handler, hb]
    exact h
  | some j =>
    simp only [signal_handler, hb, drain]
    by_cases e : id = j
    · subst e
      simp only [Shm.store, if_true]
      exact is_occupied_markEmpty _
    · simp only [Shm.store, if_neg e]
      exact h

/-- A step of the sender that changes the content of an object is a write of a
line into the outbox, made from the `read` point of the loop. -/
theorem step_store (w : World) (j : Nat)
    (h : (w.next Event.step).shm.objs j ≠ w.shm.objs j) :
    w.main.pc = PC.read ∧ w.a.status = none ∧ w.a.other_inbox = some j ∧
      ∃ msg rest, fgets w.main.message BOX_SIZE w.main.stdin = some (msg, rest) ∧
        (w.next Event.step).shm.objs j = write (w.shm.objs j) msg ∧
        (w.next Event.step).main.pc = PC.poll ∧
        (w.next Event.step).a.kills = w.a.kills ++ [(w.a.other_pid, Signal.SIGUSR1)] := by
  simp only [World.next, mainStep] at h ⊢
  cases hst : w.a.status with
  | some e => simp [hst] at h
  | none =>
    cases hpc : w.main.pc with
    | finished => simp [hst, hpc] at h
    | poll =>
      cases hob : w.a.other_inbox with
      | none => simp [hst, hpc, hob] at h
      | some id =>
        by_cases ho : is_occupied (w.shm.objs id) <;> simp [hst, hpc, hob, ho] at h
    | read =>
      cases hfg : fgets w.main.message BOX_SIZE w.main.stdin with
      | none => simp [hst, hpc, hfg, cleanup_inboxes, Shm.shm_unlink] at h
      | some r =>
        obtain ⟨msg, rest⟩ := r
        cases hob : w.a.other_inbox with
        | none => simp [hst, hpc, hfg, hob] at h
        | some id =>
          by_cases e : j = id
          · subst e
            simp [hst, hpc, hfg, hob, Shm.store]
          · simp [hst, hpc, hfg, hob, Shm.store, e] at h

theorem inv_iff (w : World) :
    w.Inv ↔ (w.main.pc = PC.read → w.a.status = none →
      ∀ id, w.a.other_inbox = some id → is_occupied (w.shm.objs id) = false) := by
  unfold World.Inv World.outbox
  cases h : w.a.other_inbox with
  | none => simp [is_occupied]
  | some id => simp

theorem inv_next (w : World) (ev : Event) (h : w.Inv) : (w.next ev).Inv := by
  rw [inv_iff] at h ⊢
  cases ev with
  | drain =>
    unfold World.next
    cases hb : w.b.status with
    | some e => exact h
    | none =>
      intro hpc hst id hid
      exact drain_keeps_empty w.b w.shm id (h hpc hst id hid)
  | step =>
    simp only [World.next, mainStep]
    cases hst : w.a.status with
    | some e => simp [hst]
    | none =>
      cases hpc : w.main.pc with
      | finished => simp [hpc]
      | poll =>
        cases hob : w.a.other_inbox with
        | none => simp [hpc, hob]
        | some id =>
          by_cases ho : is_occupied (w.shm.objs id)
          · simp [hpc, hob, ho]
          · simp [hpc, hob, ho, hst]
      | read =>
        cases hfg : fgets w.main.message BOX_SIZE w.main.stdin with
        | none => simp [hpc, hfg]
        | some r =>
          obtain ⟨msg, rest⟩ := r
          cases hob : w.a.other_inbox with
          | none => simp [hpc, hfg, hob]
          | some id => simp [hpc, hfg, hob]

theorem inv_run (w : World) (evs : List Event) (h : w.Inv) : (w.run evs).Inv := by
  induction evs generalizing w with
  | nil => exact h
  | cons ev rest ih => exact ih (w.next ev) (inv_next w ev h)

/-- While the outbox is occupied, a polling sender does not move. -/
theorem poll_blocked (w : World) (id : Nat) (hst : w.a.status = none)
    (hpc : w.main.pc = PC.poll) (hob : w.a.other_inbox = some id)
    (ho : is_occupied (w.shm.objs id) = true) : w.next Event.step = w := by
  simp [World.next, mainStep, hst, hpc, hob, ho]

/-- Claim C2 (single-slot exclusivity): start from the state a successful setup
leaves, with any peer, any input and any content of `message`, and run any
sequence of sender steps and peer drains. In the state reached: a sender step that
changes the content of any region is a write of the next line into the outbox,
made from the `read` point of the loop while the outbox sentinel is zero, and it
moves the loop to polling; while the loop polls and the outbox is occupied the
sender does not move, so it reads no further line; and the outbox is never
occupied when the loop stands before a read. -/
theorem C2_single_slot (a0 b a : Proc) (s0 s : Shm) (hwf : s0.WF)
    (hset : setup_inboxes none none a0 s0 = Except.ok (a, s))
    (stdin message : List Nat) (evs : List Event) :
    (∀ j, (((World.init a b s stdin message).run evs).next Event.step).shm.objs j ≠
          ((World.init a b s stdin message).run evs).shm.objs j →
        is_occupied (((World.init a b s stdin message).run evs).shm.objs j) = false ∧
        ((World.init a b s stdin message).run evs).a.other_inbox = some j ∧
        ((World.init a b s stdin message).run evs).main.pc = PC.read ∧
        (((World.init a b s stdin message).run evs).next Event.step).main.pc = PC.poll) ∧
    (∀ id, ((World.init a b s stdin message).run evs).a.status = none →
        ((World.init a b s stdin message).run evs).main.pc = PC.poll →
        ((World.init a b s stdin message).run evs).a.other_inbox = some id →
        is_occupied (((World.init a b s stdin message).run evs).shm.objs id) = true →
        ((World.init a b s stdin message).run evs).next Event.step =
          (World.init a b s stdin message).run evs) ∧
    ((World.init a b s stdin message).run evs).Inv := by
  obtain ⟨mine, other, s1, hset1, -, -, -, -, hzero, -, -, -, -⟩ := setup_inboxes_spec a0 s0 hwf
  rw [hset1] at hset
  have hpair := Except.ok.inj hset
  have ha : a.other_inbox = some other := by rw [← (Prod.mk.inj hpair).1]
  have hs : s = s1 := (Prod.mk.inj hpair).2.symm
  have hinit : (World.init a b s stdin message).Inv := by
    rw [inv_iff]
    intro _ _ id hid
    have hid2 : a.other_inbox = some id := hid
    rw [ha] at hid2
    have e : other = id := Option.some.inj hid2
    show is_occupied (s.objs id) = false
    rw [hs, ← e, hzero]
    rfl
  have hinv := inv_run _ evs hinit
  refine ⟨?_, ?_, hinv⟩
  · intro j hj
    obtain ⟨hpc, hst, hob, msg, rest, -, -, hnext, -⟩ := step_store _ j hj
    exact ⟨(inv_iff _).mp hinv hpc hst j hob, hob, hpc, hnext⟩
  · intro id hst hpc hob ho
    exact poll_blocked _ id hst hpc hob ho

/-- A run of the model on the input lines `a` and `b`: after the first step the
line `a` is in the outbox and the loop polls; a further step changes nothing; once
the peer has drained, the loop returns to `read` and the next step writes `b`. -/
theorem send_trace_example :
    ∃ a s, setup_inboxes none none (Proc.start 1 2) Shm.empty = Except.ok (a, s) ∧
      a.other_inbox = some 1 ∧
      ((World.init a { Proc.start 2 1 with my_inbox := some 1 } s [97, 10, 98, 10] []).run
        [Event.step]).main.pc = PC.poll ∧
      cstr ((World.init a { Proc.start 2 1 with my_inbox := some 1 } s [97, 10, 98, 10] []).run
        [Event.step]).outbox = some [97, 10] ∧
      ((World.init a { Proc.start 2 1 with my_inbox := some 1 } s [97, 10, 98, 10] []).run
        [Event.step, Event.step]).main.stdin = [98, 10] ∧
      ((World.init a { Proc.start 2 1 with my_inbox := some 1 } s [97, 10, 98, 10] []).run
        [Event.step, Event.drain, Event.step]).main.pc = PC.read ∧
      ((World.init a { Proc.start 2 1 with my_inbox := some 1 } s [97, 10, 98, 10] []).run
        [Event.step, Event.drain, Event.step]).b.stdout = [Out.received (some [97, 10])] ∧
      cstr ((World.init a { Proc.start 2 1 with my_inbox := some 1 } s [97, 10, 98, 10] []).run
        [Event.step, Event.drain, Event.step, Event.step]).outbox = some [98, 10] := by
  refine ⟨_, _, rfl, rfl, ?_, ?_, ?_, ?_, ?_, ?_⟩ <;> decide

theorem C2_single_slot_witness :
    Shm.empty.WF ∧
      ∃ a s, setup_inboxes none none (Proc.start 1 2) Shm.empty = Except.ok (a, s) ∧
        ((World.init a { Proc.start 2 1 with my_inbox := some 1 } s [97, 10, 98, 10] []).run
          [Event.step, Event.drain, Event.step]).Inv :=
  ⟨Shm.empty_WF, _, _, rfl,
    (C2_single_slot (Proc.start 1 2) { Proc.start 2 1 with my_inbox := some 1 } _ Shm.empty _
      Shm.empty_WF rfl [97, 10, 98, 10] [] [Event.step, Event.drain, Event.step]).2.2⟩

end SignalChat
